import Mathlib

set_option linter.all false

namespace Rewrite

/-- A Python expression, as the subset of the `ast` node kinds that the
rewrite engine inspects: bare names, attribute access, calls, string and
integer literals, and tuple displays. -/
inductive Expr where
  | name (id : String)
  | attr (value : Expr) (a : String)
  | call (fn : Expr) (args : List Expr)
  | strLit (s : String)
  | intLit (n : Int)
  | tup (elts : List Expr)

/-- A Python statement, as the subset of statement kinds the engine
inspects.  A function definition carries its argument names and a body of
located statements `(lineno, col_offset, stmt)`. -/
inductive Stmt where
  | assign (targets : List Expr) (value : Expr)
  | funcDef (nm : String) (args : List String) (body : List (Nat × Nat × Stmt))
  | ret (value : Option Expr)
  | imp (names : List (String × Option String))
  | impFrom (module : Option String) (names : List (String × Option String))
  | exprStmt (e : Expr)
  | passStmt

/-- A located statement: `(lineno, col_offset, statement)`. -/
abbrev LStmt := Nat × Nat × Stmt

/-- A parsed module: its list of top-level located statements. -/
abbrev Module := List LStmt

mutual

/-- All located statements reachable from one located statement,
the statement itself first (models the statement part of `ast.walk`). -/
def walkStmt : LStmt → List LStmt
  | (ln, c, s) => (ln, c, s) :: walkBody s

/-- Located statements strictly inside one statement. -/
def walkBody : Stmt → List LStmt
  | .funcDef _ _ body => walkStmts body
  | _ => []

/-- All located statements reachable from a list of located statements. -/
def walkStmts : List LStmt → List LStmt
  | [] => []
  | x :: xs => walkStmt x ++ walkStmts xs

end

/-! ### String helpers: executable models of the Python `str` methods used -/

/-- Model of `str.startswith`. -/
def strStartsWith (s pfx : String) : Bool := pfx.data.isPrefixOf s.data

/-- Model of `str.endswith`. -/
def strEndsWith (s sfx : String) : Bool := sfx.data.reverse.isPrefixOf s.data.reverse

/-- Lowercase ASCII letter test, used by the naming-rule regex. -/
def isLowerAlpha (c : Char) : Bool := 97 ≤ c.toNat && c.toNat ≤ 122

/-- ASCII digit test, used by the naming-rule regex. -/
def isDigitChar (c : Char) : Bool := 48 ≤ c.toNat && c.toNat ≤ 57

/-! ### `analyzer.py` -/

/-- `analyzer.Variable`: a convertible binding found by `analyze_file`.
The `value_source` field of the source dataclass is a display-only raw text
segment and is not modeled; `value_node` is the parsed value expression. -/
structure Variable where
  name : String
  lineno : Nat
  value_node : Expr

/-- `analyzer.SkippedPattern`.  The `source` field of the dataclass is a
display-only raw text segment and is not modeled. -/
structure SkippedPattern where
  lineno : Nat
  reason : String
  deriving DecidableEq

/-- `analyzer.is_lowercase_snake_case`: models
`re.match(r"^[a-z][a-z0-9_]*$", name) is not None`. -/
def is_lowercase_snake_case (s : String) : Bool :=
  match s.data with
  | [] => false
  | c :: rest =>
    isLowerAlpha c && rest.all (fun d => isLowerAlpha d || isDigitChar d || d == '_')

/-- One iteration of the `analyze_file` loop, restricted to the `variables`
output: `None` models every `continue` path and every non-`Assign` node. -/
def classifyVar : LStmt → Option Variable
  | (ln, c, .assign targets value) =>
    if c ≠ 0 then none
    else if targets.length > 1 then none
    else match targets with
      | [.tup _] => none
      | [.name nm] =>
        if is_lowercase_snake_case nm && !(strStartsWith nm "_") then
          some ⟨nm, ln, value⟩
        else none
      | _ => none
  | _ => none

/-- One iteration of the `analyze_file` loop, restricted to the `skipped`
output. -/
def classifySkip : LStmt → Option SkippedPattern
  | (ln, c, .assign targets _) =>
    if c ≠ 0 then none
    else if targets.length > 1 then some ⟨ln, "multiple assignment"⟩
    else match targets with
      | [.tup _] => some ⟨ln, "tuple unpacking"⟩
      | _ => none
  | _ => none

/-- `analyzer.analyze_file` on an already-parsed module.  The source walks
every node with `ast.walk` and appends to two lists in one pass; the two
output lists of that pass are exactly these two filterMaps over the walk. -/
def analyze_file (m : Module) : List Variable × List SkippedPattern :=
  ((walkStmts m).filterMap classifyVar, (walkStmts m).filterMap classifySkip)

/-- The set of converted names, as built in `cli.py`:
`var_names = {var.name for var in variables}`. -/
def varNames (vs : List Variable) : List String := vs.map (·.name)

/-! ### `transformer.py` -/

mutual

/-- `transformer.VariableToFunctionTransformer.visit` on one located
statement: the location fields are preserved by the transformer. -/
def transformLStmt (conv : List String) : LStmt → LStmt
  | (ln, c, s) => (ln, c, transformStmt conv ln c s)

/-- `visit_Assign` on assignments (its children are not revisited), and
`generic_visit` on every other statement kind.  A converted assignment
becomes `ast.FunctionDef(name, args=[], body=[Return(value)],
lineno=node.lineno, col_offset=node.col_offset)`; `fix_missing_locations`
gives the `Return` node the location of its parent. -/
def transformStmt (conv : List String) (ln c : Nat) : Stmt → Stmt
  | .assign targets value =>
    if c ≠ 0 then .assign targets value
    else if targets.length ≠ 1 then .assign targets value
    else match targets with
      | [.name nm] =>
        if conv.contains nm then .funcDef nm [] [(ln, 0, .ret (some value))]
        else .assign [.name nm] value
      | ts => .assign ts value
  | .funcDef nm args body => .funcDef nm args (transformLStmts conv body)
  | s => s

/-- `generic_visit` over a statement list. -/
def transformLStmts (conv : List String) : List LStmt → List LStmt
  | [] => []
  | x :: xs => transformLStmt conv x :: transformLStmts conv xs

end

/-- `transformer.transform_file` at tree level: the whole-module transform
(`transformer.visit(tree)` followed by `fix_missing_locations`). -/
def transform_module (conv : List String) (m : Module) : Module :=
  transformLStmts conv m

/-! ### Rendering (`ast.unparse`): canonical re-rendering of the subset -/

mutual

/-- Canonical rendering of an expression, as `ast.unparse` renders the
corresponding node (string literals shown with single quotes). -/
def renderExpr : Expr → String
  | .name id => id
  | .attr v a => renderExpr v ++ "." ++ a
  | .call f args => renderExpr f ++ "(" ++ renderExprs args ++ ")"
  | .strLit s => "\x27" ++ s ++ "\x27"
  | .intLit n => toString n
  | .tup elts => "(" ++ renderExprs elts ++ ")"

/-- Comma-separated rendering of an expression list. -/
def renderExprs : List Expr → String
  | [] => ""
  | [e] => renderExpr e
  | e :: es => renderExpr e ++ ", " ++ renderExprs es

end

mutual

/-- Canonical rendering of a statement at a given indentation, as
`ast.unparse` renders it (`t1 = t2 = value` for assignments). -/
def renderStmt (indent : String) : Stmt → String
  | .assign targets value =>
    indent ++ String.intercalate " = " ((targets ++ [value]).map renderExpr)
  | .funcDef nm args body =>
    indent ++ "def " ++ nm ++ "(" ++ String.intercalate ", " args ++ "):\n" ++
      renderLStmts (indent ++ "    ") body
  | .ret (some e) => indent ++ "return " ++ renderExpr e
  | .ret none => indent ++ "return"
  | .imp names =>
    indent ++ "im" ++ "port " ++
      String.intercalate ", " (names.map (fun p =>
        match p.2 with | some a => p.1 ++ " as " ++ a | none => p.1))
  | .impFrom mo names =>
    indent ++ "from " ++ mo.getD "" ++ " im" ++ "port " ++
      String.intercalate ", " (names.map (fun p =>
        match p.2 with | some a => p.1 ++ " as " ++ a | none => p.1))
  | .exprStmt e => indent ++ renderExpr e
  | .passStmt => indent ++ "pass"

/-- Newline-joined rendering of a located-statement list. -/
def renderLStmts (indent : String) : List LStmt → String
  | [] => ""
  | [(_, _, s)] => renderStmt indent s
  | (_, _, s) :: xs => renderStmt indent s ++ "\n" ++ renderLStmts indent xs

end

/-- The rendered text of a whole module. -/
def renderModule (m : Module) : String := renderLStmts "" m

/-! ### Parse validity of rendered output -/

mutual

/-- Whether an expression is a valid Python assignment-target form.
`ast.unparse` renders an `ast.Call` in target position as `f() = ...`,
which `ast.parse` rejects (cannot assign to function call); literals are
likewise rejected. -/
def validTarget : Expr → Bool
  | .name _ => true
  | .attr _ _ => true
  | .tup es => validTargets es
  | _ => false

/-- All members are valid assignment targets. -/
def validTargets : List Expr → Bool
  | [] => true
  | e :: es => validTarget e && validTargets es

end

mutual

/-- Every assignment target in the statement is a valid target form. -/
def stmtTargetsOk : Stmt → Bool
  | .assign targets _ => validTargets targets
  | .funcDef _ _ body => lstmtsTargetsOk body
  | _ => true

/-- Every assignment target in the list is a valid target form. -/
def lstmtsTargetsOk : List LStmt → Bool
  | [] => true
  | (_, _, s) :: xs => stmtTargetsOk s && lstmtsTargetsOk xs

end

/-- The rendered text of the module parses back with `ast.parse`: within
this embedding subset that holds exactly when every assignment target is a
valid target form. -/
def moduleParses (m : Module) : Bool := lstmtsTargetsOk m

/-! ### `usage_updater.py` -/

/-- `usage_updater.ImportInfo`.  The second field is named `alias` in the
source dataclass; `alias` is a reserved command name here, so the field
carries the name the spec data model gives it, `local_alias`. -/
structure ImportInfo where
  original_name : String
  local_alias : String
  import_type : String
  module_name : String
  deriving DecidableEq

/-- `usage_updater.UsageUpdate`.  The `lineno`/`col_offset` fields record
the location of the rewritten expression node; expression nodes carry no
locations in this embedding, so those two fields are not modeled. -/
structure UsageUpdate where
  original : String
  updated : String
  import_info : ImportInfo
  deriving DecidableEq

/-- `usage_updater.StarImportWarning`. -/
structure StarImportWarning where
  lineno : Nat
  module_name : String
  deriving DecidableEq

/-- Model of `pathlib.PurePath.stem` for a final path component: the
component without its last suffix; a dot in first position does not begin
a suffix. -/
def pathStem (s : String) : String :=
  let cs := s.data
  let dotIdxs := (List.range cs.length).filter
    (fun i => decide (1 ≤ i) && (cs.getD i ' ' == '.'))
  match dotIdxs.getLast? with
  | none => s
  | some i => (cs.take i).asString

/-- `usage_updater.get_module_name_from_file`.  Resolved absolute paths are
modeled as component lists, root first; `Path.relative_to` succeeds exactly
when `module_root` is a component prefix of `target_file`.  When the
relative path is empty (`"."`, impossible for a file under the root) the
source would produce `""`. -/
def get_module_name_from_file (target_file module_root : List String) : Option String :=
  if module_root.isPrefixOf target_file then
    let rel := target_file.drop module_root.length
    match rel.reverse with
    | [] => some ""
    | last :: restRev =>
      some (String.intercalate "." (restRev.reverse ++ [pathStem last]))
  else none

/-- Python dict assignment `d[k] = v`: overwrite the value of an existing
key in place, otherwise append the new entry. -/
def dictInsert (d : List (String × ImportInfo)) (k : String) (v : ImportInfo) :
    List (String × ImportInfo) :=
  if d.any (fun p => p.1 == k) then d.map (fun p => if p.1 == k then (k, v) else p)
  else d ++ [(k, v)]

/-- Python dict lookup, also modelling the `in` test (`isSome`). -/
def dictGet (d : List (String × ImportInfo)) (k : String) : Option ImportInfo :=
  (d.find? (fun p => p.1 == k)).map (·.2)

/-- The `ImportFrom` module test in `analyze_imports`:
`node.module == target_module or (node.module and
target_module.endswith(node.module))` (an absent or empty module is falsy). -/
def fromModuleMatches (target : String) : Option String → Bool
  | none => false
  | some ms => ms == target || (!(ms == "") && strEndsWith target ms)

/-- The `Import` module test in `analyze_imports`:
`alias.name == target_module or target_module.startswith(alias.name + ".")`. -/
def importModuleMatches (target nm : String) : Bool :=
  nm == target || strStartsWith target (nm ++ ".")

/-- Dict-insertion events contributed by one located statement of the
`ast.walk` pass of `analyze_imports` (import names are iterated in order;
`imported_as = alias.asname if alias.asname else alias.name`). -/
def stmtImportEvents (target : String) (conv : List String) : LStmt → List (String × ImportInfo)
  | (_, _, .impFrom mo names) =>
    if fromModuleMatches target mo then
      names.filterMap (fun p =>
        if p.1 == "*" then none
        else if conv.contains p.1 then
          some (p.2.getD p.1, ⟨p.1, p.2.getD p.1, "from", mo.getD ""⟩)
        else none)
    else []
  | (_, _, .imp names) =>
    names.filterMap (fun p =>
      if importModuleMatches target p.1 then
        some ("__module__" ++ p.2.getD p.1, ⟨p.1, p.2.getD p.1, "direct", p.1⟩)
      else none)
  | _ => []

/-- Star-import warnings contributed by one located statement of the
`ast.walk` pass of `analyze_imports`. -/
def stmtStarWarnings (target : String) : LStmt → List StarImportWarning
  | (ln, _, .impFrom mo names) =>
    if fromModuleMatches target mo then
      names.filterMap (fun p => if p.1 == "*" then some ⟨ln, mo.getD ""⟩ else none)
    else []
  | _ => []

/-- `usage_updater.analyze_imports` on an already-parsed module.  The single
`ast.walk` pass builds the `imports` dict by successive insertions and
appends star warnings in statement order; its result equals folding the
insertion events and concatenating the warning events. -/
def analyze_imports (m : Module) (target : String) (conv : List String) :
    List (String × ImportInfo) × List StarImportWarning :=
  (((walkStmts m).map (stmtImportEvents target conv)).flatten.foldl
      (fun d kv => dictInsert d kv.1 kv.2) [],
   ((walkStmts m).map (stmtStarWarnings target)).flatten)

mutual

/-- `UsageTransformer.visit` on an expression: `visit_Name` rewrites a bare
name whose id is an imports key of kind `from` into a zero-argument call
(children of the returned node are not revisited); `visit_Attribute`
rewrites `base.attr` when `base` is a bare name, `__module__base` is an
imports key and `attr` is converted; every other node gets `generic_visit`.
Returns the new expression and the recorded updates in visit order. -/
def visitExpr (imports : List (String × ImportInfo)) (conv : List String) :
    Expr → Expr × List UsageUpdate
  | .name id =>
    match dictGet imports id with
    | some info =>
      if info.import_type == "from" then
        (.call (.name id) [], [⟨id, id ++ "()", info⟩])
      else (.name id, [])
    | none => (.name id, [])
  | .attr (.name vid) a =>
    match dictGet imports ("__module__" ++ vid) with
    | some info =>
      if conv.contains a then
        (.call (.attr (.name vid) a) [], [⟨vid ++ "." ++ a, vid ++ "." ++ a ++ "()", info⟩])
      else
        let r := visitExpr imports conv (.name vid)
        (.attr r.1 a, r.2)
    | none =>
      let r := visitExpr imports conv (.name vid)
      (.attr r.1 a, r.2)
  | .attr v a =>
    let r := visitExpr imports conv v
    (.attr r.1 a, r.2)
  | .call f args =>
    let rf := visitExpr imports conv f
    let ra := visitExprs imports conv args
    (.call rf.1 ra.1, rf.2 ++ ra.2)
  | .strLit s => (.strLit s, [])
  | .intLit n => (.intLit n, [])
  | .tup elts =>
    let r := visitExprs imports conv elts
    (.tup r.1, r.2)

/-- `generic_visit` over an expression list, collecting updates in order. -/
def visitExprs (imports : List (String × ImportInfo)) (conv : List String) :
    List Expr → List Expr × List UsageUpdate
  | [] => ([], [])
  | e :: es =>
    let r := visitExpr imports conv e
    let rs := visitExprs imports conv es
    (r.1 :: rs.1, r.2 ++ rs.2)

end

mutual

/-- `UsageTransformer.visit` on one located statement. -/
def visitLStmtU (imports : List (String × ImportInfo)) (conv : List String) :
    LStmt → LStmt × List UsageUpdate
  | (ln, c, s) =>
    let r := visitStmtU imports conv s
    ((ln, c, r.1), r.2)

/-- `generic_visit` on a statement: child expressions are visited in field
order (`targets` before `value` for assignments). -/
def visitStmtU (imports : List (String × ImportInfo)) (conv : List String) :
    Stmt → Stmt × List UsageUpdate
  | .assign targets value =>
    let rt := visitExprs imports conv targets
    let rv := visitExpr imports conv value
    (.assign rt.1 rv.1, rt.2 ++ rv.2)
  | .funcDef nm args body =>
    let rb := visitLStmtsU imports conv body
    (.funcDef nm args rb.1, rb.2)
  | .ret (some e) =>
    let r := visitExpr imports conv e
    (.ret (some r.1), r.2)
  | .ret none => (.ret none, [])
  | .imp names => (.imp names, [])
  | .impFrom mo names => (.impFrom mo names, [])
  | .exprStmt e =>
    let r := visitExpr imports conv e
    (.exprStmt r.1, r.2)
  | .passStmt => (.passStmt, [])

/-- `UsageTransformer.visit` over a located-statement list. -/
def visitLStmtsU (imports : List (String × ImportInfo)) (conv : List String) :
    List LStmt → List LStmt × List UsageUpdate
  | [] => ([], [])
  | x :: xs =>
    let r := visitLStmtU imports conv x
    let rs := visitLStmtsU imports conv xs
    (r.1 :: rs.1, r.2 ++ rs.2)

end

/-- `usage_updater.update_usage_file` on an already-parsed consuming module
(the caller model in `cli` handles unreadable and unparsable files).
Returns the rewritten module (only when at least one update was recorded),
the updates, and the star warnings. -/
def update_usage_file (consumer : Module) (target_file module_root : List String)
    (conv : List String) : Option Module × List UsageUpdate × List StarImportWarning :=
  match get_module_name_from_file target_file module_root with
  | none => (none, [], [])
  | some tm =>
    if tm == "" then (none, [], [])
    else
      let air := analyze_imports consumer tm conv
      if air.1.isEmpty && air.2.isEmpty then (none, [], [])
      else
        let r := visitLStmtsU air.1 conv consumer
        if r.2.isEmpty then (none, [], air.2)
        else (some r.1, r.2, air.2)

/-! ### `scanner.py` -/

/-- `scanner.find_module_root`, the climbing loop.  A directory is modeled
as its component list written leaf first (so the parent is the tail and
`[]` is the filesystem root, whose parent is itself); `hasInit d` models
`(d / "__init__.py").exists()` and `gitRoot` models the `find_git_root`
result (`none` when git is unavailable or the path is not in a repo). -/
def find_module_root_loop (hasInit : List String → Bool)
    (gitRoot : Option (List String)) : List String → List String → List String
  | [], moduleRoot => moduleRoot
  | d :: rest, moduleRoot =>
    if gitRoot == some (d :: rest) then moduleRoot
    else if !hasInit rest then moduleRoot
    else find_module_root_loop hasInit gitRoot rest (d :: rest)

/-- `scanner.find_module_root`: starts at the directory containing the
target file (passed here directly, leaf first) with `module_root`
initialized to that same directory. -/
def find_module_root (hasInit : List String → Bool) (gitRoot : Option (List String))
    (targetDir : List String) : List String :=
  find_module_root_loop hasInit gitRoot targetDir targetDir

/-- Modelled from the spec: the module root described in the specification
(spec section 4.2) — climb while the parent has the package marker and
return the directory at which climbing stopped, i.e. the last directory
confirmed to be part of the package chain (also claim C1 wording).  This
definition follows the words of the spec, for comparison with
`find_module_root`, which is translated from the source. -/
def spec_module_root (hasInit : List String → Bool)
    (gitRoot : Option (List String)) : List String → List String
  | [] => []
  | d :: rest =>
    if gitRoot == some (d :: rest) then d :: rest
    else if !hasInit rest then d :: rest
    else spec_module_root hasInit gitRoot rest

/-! ### `cli.py` -/

/-- One externally visible filesystem effect of a `cli` run. -/
inductive Event where
  | read (f : String)
  | write (f : String)
  | abort
  | exitOk
  deriving DecidableEq

/-- The step-4 loop of `cli.cli` over the scanned files: skips the target
file, reads each other file (a missing/unreadable file raises, which the
surrounding handler turns into an abort with nothing written), runs
`update_usage_file` on it, and collects the files that received a rewritten
source into `files_to_update`.  `fs` maps a path to `none` when
missing/unreadable, `some none` when unparsable, and `some (some m)` when
it parses to `m`. -/
def usageLoop (fs : String → Option (Option Module)) (target : String)
    (tf mr : List String) (conv : List String) :
    List String → List Event × Bool × List String
  | [] => ([], false, [])
  | f :: rest =>
    if f == target then usageLoop fs target tf mr conv rest
    else
      match fs f with
      | none => ([.read f], true, [])
      | some pf =>
        let res :=
          match pf with
          | none => (none, [], [])
          | some consumer => update_usage_file consumer tf mr conv
        let r := usageLoop fs target tf mr conv rest
        (.read f :: r.1, r.2.1, (if res.1.isSome then [f] else []) ++ r.2.2)

/-- `cli.cli` as the trace of its filesystem effects, in program order.
Parameters abstract the external collaborators: `patternOk` is the
pattern-gate result, `scanned` the `scan_module` file list, and `tf`/`mr`
the target-file and module-root paths passed to `update_usage_file`.  An
exception anywhere before step 5 is caught by the single handler and
becomes an abort; in apply mode `transform_file` re-reads the target, the
target is written first, then every file in `files_to_update`. -/
def cli (fs : String → Option (Option Module)) (target : String) (patternOk : Bool)
    (scanned : List String) (tf mr : List String) (applyFlag : Bool) : List Event :=
  match fs target with
  | none => [.abort]
  | some tparse =>
    if !patternOk then [.abort]
    else
      match tparse with
      | none => [.read target, .abort]
      | some tm =>
        let ar := analyze_file tm
        if ar.1.isEmpty && ar.2.isEmpty then [.read target, .exitOk]
        else
          let r := usageLoop fs target tf mr (varNames ar.1) scanned
          if r.2.1 then .read target :: r.1 ++ [.abort]
          else if applyFlag then
            .read target :: r.1 ++ [.read target, .write target] ++ r.2.2.map .write
          else .read target :: r.1 ++ [.exitOk]

/-! ### Helper lemmas -/

theorem walkStmts_cons (x : LStmt) (xs : List LStmt) :
    walkStmts (x :: xs) = walkStmt x ++ walkStmts xs := rfl

theorem walkStmt_eq (ln c : Nat) (s : Stmt) :
    walkStmt (ln, c, s) = (ln, c, s) :: walkBody s := rfl

theorem mem_walkStmts {x : LStmt} {l : List LStmt} :
    x ∈ walkStmts l ↔ ∃ y ∈ l, x ∈ walkStmt y := by
  induction l with
  | nil => simp [walkStmts]
  | cons a as ih => simp [walkStmts_cons, ih]

theorem self_mem_walkStmt (y : LStmt) : y ∈ walkStmt y := by
  obtain ⟨ln, c, s⟩ := y
  rw [walkStmt_eq]
  exact List.mem_cons_self _ _

theorem mem_walkStmts_of_mem {y : LStmt} {l : List LStmt} (h : y ∈ l) :
    y ∈ walkStmts l :=
  mem_walkStmts.mpr ⟨y, h, self_mem_walkStmt y⟩

theorem transformLStmts_eq_map (conv : List String) (l : List LStmt) :
    transformLStmts conv l = l.map (transformLStmt conv) := by
  induction l with
  | nil => rfl
  | cons a as ih => simp [transformLStmts, ih]

/-- Inversion for the variable classifier: exactly the column-zero,
single-bare-name, naming-rule-passing assignments produce a `Variable`. -/
theorem classifyVar_eq_some {ln c : Nat} {s : Stmt} {v : Variable} :
    classifyVar (ln, c, s) = some v ↔
      c = 0 ∧ ln = v.lineno ∧ s = .assign [.name v.name] v.value_node ∧
        is_lowercase_snake_case v.name = true ∧ strStartsWith v.name "_" = false := by
  constructor
  · intro h
    cases s with
    | assign targets value =>
      simp only [classifyVar] at h
      split at h
      · exact absurd h (by simp)
      · split at h
        · exact absurd h (by simp)
        · rcases targets with _ | ⟨t, _ | ⟨t2, ts⟩⟩
          · simp at h
          · cases t with
            | name nm =>
              simp only at h
              split at h
              · rename_i hcond
                obtain ⟨h1, h2⟩ := Bool.and_eq_true_iff.mp hcond
                cases h
                simp_all [Bool.not_eq_true']
              · simp at h
            | tup es => simp at h
            | attr a b => simp at h
            | call a b => simp at h
            | strLit a => simp at h
            | intLit a => simp at h
          · simp at h
    | funcDef nm args body => simp [classifyVar] at h
    | ret e => simp [classifyVar] at h
    | imp ns => simp [classifyVar] at h
    | impFrom mo ns => simp [classifyVar] at h
    | exprStmt e => simp [classifyVar] at h
    | passStmt => simp [classifyVar] at h
  · rintro ⟨rfl, rfl, rfl, h1, h2⟩
    simp [classifyVar, h1, h2]

/-- Inversion for the skip classifier: a `SkippedPattern` only arises from a
column-zero assignment with multiple targets or a tuple target. -/
theorem classifySkip_eq_some {ln c : Nat} {s : Stmt} {sp : SkippedPattern}
    (h : classifySkip (ln, c, s) = some sp) :
    c = 0 ∧ ln = sp.lineno ∧ ∃ targets value, s = .assign targets value ∧
      (targets.length > 1 ∨ ∃ es, targets = [Expr.tup es]) := by
  cases s with
  | assign targets value =>
    simp only [classifySkip] at h
    split at h
    · exact absurd h (by simp)
    · split at h
      · rename_i hc hlen
        cases h
        exact ⟨by omega, rfl, targets, value, rfl, Or.inl hlen⟩
      · rcases targets with _ | ⟨t, _ | ⟨t2, ts⟩⟩
        · simp at h
        · cases t with
          | tup es =>
            rename_i hc _
            cases h
            exact ⟨by omega, rfl, [Expr.tup es], value, rfl, Or.inr ⟨es, rfl⟩⟩
          | name nm => simp at h
          | attr a b => simp at h
          | call a b => simp at h
          | strLit a => simp at h
          | intLit a => simp at h
        · simp at h
  | funcDef nm args body => simp [classifySkip] at h
  | ret e => simp [classifySkip] at h
  | imp ns => simp [classifySkip] at h
  | impFrom mo ns => simp [classifySkip] at h
  | exprStmt e => simp [classifySkip] at h
  | passStmt => simp [classifySkip] at h

/-! ### Claim C1 -/

/-- Package marker layout for the failing input: the directory `/repo/pkg`
contains `__init__.py` (directories are leaf-first component lists, so
`/repo/pkg` is `["pkg", "repo"]`); `/repo` and the filesystem root do not
contain the marker, and there is no git root. -/
def pkgHasInit : List String → Bool := fun d => d == ["pkg", "repo"]

/-- C1: for a target file in `/repo/pkg/sub/` with `/repo/pkg/__init__.py`
present and `/repo/__init__.py` absent, climbing stops at `/repo/pkg` (the
last directory confirmed to be part of the package chain, as the spec and
the claim describe and as the `module_root` comment in the source asserts),
but `find_module_root` returns the stale `module_root` variable, which
still holds the starting directory `/repo/pkg/sub` — one level below the
directory at which climbing stopped. -/
theorem C1_module_root_lags_one_level :
    find_module_root pkgHasInit none ["sub", "pkg", "repo"] = ["sub", "pkg", "repo"] ∧
    spec_module_root pkgHasInit none ["sub", "pkg", "repo"] = ["pkg", "repo"] ∧
    (["sub", "pkg", "repo"] : List String) ≠ ["pkg", "repo"] :=
  ⟨rfl, rfl, by decide⟩

/-! ### Claim C3 -/

/-- The consuming module parsed from the two source lines
`from target import schema_name` and `schema_name = 5`: the converted name
occurs as a plain (store-context) assignment target. -/
def storeContextConsumer : Module :=
  [(1, 0, .impFrom (some "target") [("schema_name", none)]),
   (2, 0, .assign [.name "schema_name"] (.intLit 5))]

/-- The module `update_usage_file` produces for `storeContextConsumer`: the
assignment target has become a zero-argument call. -/
def storeContextRewritten : Module :=
  [(1, 0, .impFrom (some "target") [("schema_name", none)]),
   (2, 0, .assign [.call (.name "schema_name") []] (.intLit 5))]

/-- C3: `UsageTransformer.visit_Name` does not inspect the expression
context, so `update_usage_file` records a UsageUpdate for the assignment
target `schema_name` and rewrites it into `schema_name()`; the returned
source renders as `schema_name() = 5`, which `ast.parse` rejects (cannot
assign to a function call).  The original module parses, the rewritten one
does not, contradicting the claim that the returned rewritten source
parses successfully for all usage contexts including assignment targets. -/
theorem C3_store_context_rewrite_breaks_parse :
    update_usage_file storeContextConsumer ["target.py"] [] ["schema_name"] =
      (some storeContextRewritten,
       [⟨"schema_name", "schema_name()", ⟨"schema_name", "schema_name", "from", "target"⟩⟩],
       []) ∧
    moduleParses storeContextConsumer = true ∧
    moduleParses storeContextRewritten = false :=
  ⟨rfl, rfl, rfl⟩

/-! ### Claim C5 -/

/-- The located statement parsed from the source line `x=y=1` (a chained
multi-target assignment written without spaces around `=`);
`ast.get_source_segment` returns the raw text `"x=y=1"` for it. -/
def chainedAssign : LStmt := (1, 0, .assign [.name "x", .name "y"] (.intLit 1))

/-- Counterexample to C5 as stated: the chained assignment `x=y=1` is
classified as a SkippedPattern and the transformer leaves its tree intact,
but `transform_file` re-renders the whole file with `ast.unparse`, so the
text of that statement in the output file is the canonical `x = y = 1`,
not the original text `x=y=1`. -/
theorem C5_counterexample_rerendered_text :
    classifySkip chainedAssign = some ⟨1, "multiple assignment"⟩ ∧
    renderModule (transform_module (varNames (analyze_file [chainedAssign]).1)
      [chainedAssign]) = "x = y = 1" ∧
    ("x = y = 1" : String) ≠ "x=y=1" :=
  ⟨rfl, rfl, by decide⟩

/-- C5 (amended): for every statement classified as a SkippedPattern
(multiple-target or tuple-destructuring top-level assignment) the
transformer returns the statement with an unchanged tree, so its text in
the output file is the canonical re-rendering of the original statement —
identical to the original text whenever that text is already canonically
formatted. -/
theorem C5_skipped_statement_tree_unchanged (conv : List String) (x : LStmt)
    (sp : SkippedPattern) (h : classifySkip x = some sp) :
    transformLStmt conv x = x := by
  obtain ⟨ln, c, s⟩ := x
  obtain ⟨hc0, hln, ts, val, hs, hshape⟩ := classifySkip_eq_some h
  subst hc0
  subst hs
  simp only [transformLStmt, transformStmt]
  rcases hshape with hlen | ⟨es, rfl⟩
  · have hne : ts.length ≠ 1 := by omega
    simp [hne]
  · simp

/-- Witness for C5: the end-to-end scenario E statement
`a, b = compute()` is skipped as tuple unpacking and the transformer
leaves it unchanged. -/
theorem C5_witness :
    classifySkip (1, 0, Stmt.assign [Expr.tup [Expr.name "a", Expr.name "b"]]
        (Expr.call (Expr.name "compute") [])) = some ⟨1, "tuple unpacking"⟩ ∧
    transformLStmt ["a", "b"] (1, 0, Stmt.assign [Expr.tup [Expr.name "a", Expr.name "b"]]
        (Expr.call (Expr.name "compute") [])) =
      (1, 0, Stmt.assign [Expr.tup [Expr.name "a", Expr.name "b"]]
        (Expr.call (Expr.name "compute") [])) :=
  ⟨rfl, C5_skipped_statement_tree_unchanged _ _ ⟨1, "tuple unpacking"⟩ rfl⟩

/-! ### Claim C7 -/

/-- C7: every top-level (column-zero), single-target, simple-name
assignment whose target name is in the converted set is replaced, at the
same position in the module body, by a zero-argument function definition
of the same name whose sole body statement returns the original value
expression unchanged. -/
theorem C7_assign_becomes_zero_arg_funcdef (conv : List String) (m : Module)
    (i ln : Nat) (nm : String) (value : Expr)
    (hm : m[i]? = some (ln, 0, Stmt.assign [Expr.name nm] value))
    (hc : nm ∈ conv) :
    (transform_module conv m)[i]? =
      some (ln, 0, Stmt.funcDef nm [] [(ln, 0, Stmt.ret (some value))]) := by
  rw [transform_module, transformLStmts_eq_map, List.getElem?_map, hm]
  simp [transformLStmt, transformStmt, hc]

/-- Witness for C7: the end-to-end scenario A target declaration
`schema_name = "user_schema"` becomes a zero-argument callable named
`schema_name` returning `"user_schema"`. -/
theorem C7_witness :
    (transform_module ["schema_name"]
        [(1, 0, Stmt.assign [Expr.name "schema_name"] (Expr.strLit "user_schema"))])[0]? =
      some (1, 0, Stmt.funcDef "schema_name" []
        [(1, 0, Stmt.ret (some (Expr.strLit "user_schema")))]) :=
  C7_assign_becomes_zero_arg_funcdef ["schema_name"] _ 0 1 "schema_name"
    (Expr.strLit "user_schema") rfl (by decide)

/-! ### Claim C9 -/

/-- The module parsed from the single source line `x = 1; y = 2`: both
assignments are direct module-body statements, and the one after the
semicolon starts at column 7. -/
def semicolonModule : Module :=
  [(1, 0, .assign [.name "x"] (.intLit 1)), (1, 7, .assign [.name "y"] (.intLit 2))]

/-- Counterexample to C9 as stated: `y = 2` is a top-level statement of the
module body assigning a single bare snake-case identifier, yet because it
follows a semicolon its `col_offset` is 7 and `analyze_file` produces
neither a Binding nor a SkippedPattern for it. -/
theorem C9_counterexample_semicolon :
    (1, 7, Stmt.assign [Expr.name "y"] (Expr.intLit 2)) ∈ semicolonModule ∧
    (analyze_file semicolonModule).1.map Variable.name = ["x"] ∧
    (analyze_file semicolonModule).2 = [] :=
  ⟨List.Mem.tail _ (List.Mem.head _), rfl, rfl⟩

/-- C9 (amended): the classifier produces a Binding exactly for the
assignments whose statement starts at column 0 (so a top-level assignment
following a semicolon on the same line is not classified), assigns a
single bare identifier, and satisfies the naming rule; and every
SkippedPattern arises from a column-zero assignment with multiple targets
or a tuple target, so identifiers failing the naming rule are ignored
silently with no Binding and no SkippedPattern. -/
theorem C9_classifier_characterization (m : Module) :
    (∀ v : Variable, v ∈ (analyze_file m).1 ↔
      ((v.lineno, 0, Stmt.assign [Expr.name v.name] v.value_node) ∈ walkStmts m ∧
        is_lowercase_snake_case v.name = true ∧ strStartsWith v.name "_" = false)) ∧
    (∀ sp ∈ (analyze_file m).2, ∃ targets value,
      (sp.lineno, 0, Stmt.assign targets value) ∈ walkStmts m ∧
        (targets.length > 1 ∨ ∃ es, targets = [Expr.tup es])) := by
  constructor
  · intro v
    constructor
    · intro hv
      obtain ⟨x, hx, hcv⟩ := List.mem_filterMap.mp hv
      obtain ⟨ln, c, s⟩ := x
      obtain ⟨hc0, hln, hs, h1, h2⟩ := classifyVar_eq_some.mp hcv
      subst hc0
      subst hln
      subst hs
      exact ⟨hx, h1, h2⟩
    · rintro ⟨hmem, h1, h2⟩
      exact List.mem_filterMap.mpr
        ⟨(v.lineno, 0, Stmt.assign [Expr.name v.name] v.value_node), hmem,
          classifyVar_eq_some.mpr ⟨rfl, rfl, rfl, h1, h2⟩⟩
  · intro sp hsp
    obtain ⟨x, hx, hcs⟩ := List.mem_filterMap.mp hsp
    obtain ⟨ln, c, s⟩ := x
    obtain ⟨hc0, hln, ts, val, hs, hshape⟩ := classifySkip_eq_some hcs
    subst hc0
    subst hln
    subst hs
    exact ⟨ts, val, hx, hshape⟩

/-- Witness for C9: the characterization applied to the semicolon module
shows the column-zero assignment `x = 1` produces its Binding. -/
theorem C9_witness :
    (⟨"x", 1, Expr.intLit 1⟩ : Variable) ∈ (analyze_file semicolonModule).1 :=
  ((C9_classifier_characterization semicolonModule).1 _).mpr
    ⟨List.Mem.head _, rfl, rfl⟩

/-! ### Claim C2 -/

/-- Splitting a character list at a separator, the list analogue of
`str.split(sep)`.  Used only to state the claim-side component-aligned
suffix test. -/
def splitCharList (sep : Char) : List Char → List (List Char)
  | [] => [[]]
  | c :: cs =>
    let r := splitCharList sep cs
    if c == sep then [] :: r
    else
      match r with
      | [] => [[c]]
      | h :: t => (c :: h) :: t

/-- The dot-separated components of a module name. -/
def dotComponents (s : String) : List String :=
  (splitCharList '.' s.data).map List.asString

/-- Modelled from the claim C2 wording: the stated module matches when it
equals the target module name, or the target module name is a dotted
suffix of the stated partially-specified module name, the suffix aligned
on dot-separated component boundaries.  This follows the words of the
claim, for comparison with `fromModuleMatches`, which is translated from
the source. -/
def claimC2ModuleMatch (target stated : String) : Bool :=
  stated == target || (dotComponents target).isSuffixOf (dotComponents stated)

/-- Counterexample to C2 as stated: with target module `myconfig`, the
statement `from config import x` registers an ImportBinding because the
source tests `"myconfig".endswith("config")` — a plain string suffix test —
although `config` equals neither `myconfig` nor any dot-component-aligned
suffix relationship in either direction. -/
theorem C2_counterexample_unaligned_suffix :
    (analyze_imports [(1, 0, .impFrom (some "config") [("x", none)])] "myconfig" ["x"]).1 =
      [("x", ⟨"x", "x", "from", "config"⟩)] ∧
    claimC2ModuleMatch "myconfig" "config" = false ∧
    (dotComponents "config").isSuffixOf (dotComponents "myconfig") = false :=
  ⟨rfl, by decide, by decide⟩

/-- C2 (amended): a `from module import name` statement registers an
ImportBinding exactly when the stated module equals the target module name
or is a nonempty plain-string suffix of it (`str.endswith`, not aligned on
dot component boundaries) and the imported name is in the converted set;
under the same module condition a `*` name registers a
WildcardImportWarning instead; in every other case nothing is registered. -/
theorem C2_from_import_registration (ln c : Nat) (mo : Option String)
    (nm : String) (asn : Option String) (t : String) (conv : List String) :
    analyze_imports [(ln, c, Stmt.impFrom mo [(nm, asn)])] t conv =
      (match mo with
       | none => ([], [])
       | some ms =>
         if ms == t || (!(ms == "") && strEndsWith t ms) then
           if nm == "*" then ([], [⟨ln, ms⟩])
           else if conv.contains nm then
             ([(asn.getD nm, ⟨nm, asn.getD nm, "from", ms⟩)], [])
           else ([], [])
         else ([], [])) := by
  cases mo with
  | none =>
    simp [analyze_imports, walkStmts, walkStmt, walkBody, stmtImportEvents,
      stmtStarWarnings, fromModuleMatches]
  | some ms =>
    by_cases hm : (ms == t || (!(ms == "") && strEndsWith t ms)) = true
    · by_cases hs : nm = "*"
      · subst hs
        simp [analyze_imports, walkStmts, walkStmt, walkBody, stmtImportEvents,
          stmtStarWarnings, fromModuleMatches, hm]
      · by_cases hcv : nm ∈ conv
        · simp [analyze_imports, walkStmts, walkStmt, walkBody, stmtImportEvents,
            stmtStarWarnings, fromModuleMatches, dictInsert, hm, hs, hcv]
        · simp [analyze_imports, walkStmts, walkStmt, walkBody, stmtImportEvents,
            stmtStarWarnings, fromModuleMatches, hm, hs, hcv]
    · simp [analyze_imports, walkStmts, walkStmt, walkBody, stmtImportEvents,
        stmtStarWarnings, fromModuleMatches, hm]

/-! ### Identifier collectors and transformer-identity lemmas -/

mutual

/-- All bare-name identifiers occurring in an expression. -/
def exprIds : Expr → List String
  | .name id => [id]
  | .attr v _ => exprIds v
  | .call f args => exprIds f ++ exprsIds args
  | .strLit _ => []
  | .intLit _ => []
  | .tup elts => exprsIds elts

/-- All bare-name identifiers occurring in an expression list. -/
def exprsIds : List Expr → List String
  | [] => []
  | e :: es => exprIds e ++ exprsIds es

end

mutual

/-- All bare-name identifiers occurring in expressions of a statement. -/
def stmtIds : Stmt → List String
  | .assign ts v => exprsIds ts ++ exprIds v
  | .funcDef _ _ body => lstmtsIds body
  | .ret (some e) => exprIds e
  | .ret none => []
  | .imp _ => []
  | .impFrom _ _ => []
  | .exprStmt e => exprIds e
  | .passStmt => []

/-- All bare-name identifiers in a located-statement list. -/
def lstmtsIds : List LStmt → List String
  | [] => []
  | (_, _, s) :: xs => stmtIds s ++ lstmtsIds xs

end

mutual

/-- When no identifier of the expression hits the imports dict — neither as
a plain key nor through the `__module__` key mangling — the usage
transformer returns the expression unchanged with no updates. -/
theorem visitExpr_id (imports : List (String × ImportInfo)) (conv : List String) :
    ∀ (e : Expr), (∀ id ∈ exprIds e, dictGet imports id = none ∧
      dictGet imports ("__module__" ++ id) = none) →
      visitExpr imports conv e = (e, [])
  | .name id, h => by
    have h1 := (h id (by simp [exprIds])).1
    simp [visitExpr, h1]
  | .attr (.name vid) a, h => by
    have h1 := (h vid (by simp [exprIds])).1
    have h2 := (h vid (by simp [exprIds])).2
    simp [visitExpr, h1, h2]
  | .attr (.attr v b) a, h => by
    have hv := visitExpr_id imports conv (.attr v b) (fun id hid => h id (by simpa [exprIds] using hid))
    simp [visitExpr, hv]
  | .attr (.call f args) a, h => by
    have hv := visitExpr_id imports conv (.call f args) (fun id hid => h id (by simpa [exprIds] using hid))
    show ((visitExpr imports conv (Expr.call f args)).1.attr a,
      (visitExpr imports conv (Expr.call f args)).2) = _
    rw [hv]
  | .attr (.strLit s) a, h => by
    simp [visitExpr]
  | .attr (.intLit n) a, h => by
    simp [visitExpr]
  | .attr (.tup elts) a, h => by
    have hv := visitExpr_id imports conv (.tup elts) (fun id hid => h id (by simpa [exprIds] using hid))
    show ((visitExpr imports conv (Expr.tup elts)).1.attr a,
      (visitExpr imports conv (Expr.tup elts)).2) = _
    rw [hv]
  | .call f args, h => by
    have hf := visitExpr_id imports conv f
      (fun id hid => h id (by simp [exprIds, hid]))
    have ha := visitExprs_id imports conv args
      (fun id hid => h id (by simp [exprIds, hid]))
    simp [visitExpr, hf, ha]
  | .strLit s, h => by simp [visitExpr]
  | .intLit n, h => by simp [visitExpr]
  | .tup elts, h => by
    have ha := visitExprs_id imports conv elts
      (fun id hid => h id (by simpa [exprIds] using hid))
    simp [visitExpr, ha]

/-- List version of `visitExpr_id`. -/
theorem visitExprs_id (imports : List (String × ImportInfo)) (conv : List String) :
    ∀ (es : List Expr), (∀ id ∈ exprsIds es, dictGet imports id = none ∧
      dictGet imports ("__module__" ++ id) = none) →
      visitExprs imports conv es = (es, [])
  | [], _ => by simp [visitExprs]
  | e :: es, h => by
    have h1 := visitExpr_id imports conv e
      (fun id hid => h id (by simp [exprsIds, hid]))
    have h2 := visitExprs_id imports conv es
      (fun id hid => h id (by simp [exprsIds, hid]))
    simp [visitExprs, h1, h2]

end

mutual

/-- When no identifier of the statement hits the imports dict, the usage
transformer returns the statement unchanged with no updates. -/
theorem visitStmtU_id (imports : List (String × ImportInfo)) (conv : List String) :
    ∀ (s : Stmt), (∀ id ∈ stmtIds s, dictGet imports id = none ∧
      dictGet imports ("__module__" ++ id) = none) →
      visitStmtU imports conv s = (s, [])
  | .assign ts v, h => by
    have h1 := visitExprs_id imports conv ts
      (fun id hid => h id (by simp [stmtIds, hid]))
    have h2 := visitExpr_id imports conv v
      (fun id hid => h id (by simp [stmtIds, hid]))
    simp [visitStmtU, h1, h2]
  | .funcDef nm args body, h => by
    have hb := visitLStmtsU_id imports conv body
      (fun id hid => h id (by simpa [stmtIds] using hid))
    simp [visitStmtU, hb]
  | .ret (some e), h => by
    have h1 := visitExpr_id imports conv e
      (fun id hid => h id (by simpa [stmtIds] using hid))
    simp [visitStmtU, h1]
  | .ret none, h => by simp [visitStmtU]
  | .imp names, h => by simp [visitStmtU]
  | .impFrom mo names, h => by simp [visitStmtU]
  | .exprStmt e, h => by
    have h1 := visitExpr_id imports conv e
      (fun id hid => h id (by simpa [stmtIds] using hid))
    simp [visitStmtU, h1]
  | .passStmt, h => by simp [visitStmtU]

/-- List version of `visitStmtU_id`. -/
theorem visitLStmtsU_id (imports : List (String × ImportInfo)) (conv : List String) :
    ∀ (l : List LStmt), (∀ id ∈ lstmtsIds l, dictGet imports id = none ∧
      dictGet imports ("__module__" ++ id) = none) →
      visitLStmtsU imports conv l = (l, [])
  | [], _ => by simp [visitLStmtsU]
  | (ln, c, s) :: xs, h => by
    have h1 := visitStmtU_id imports conv s
      (fun id hid => h id (by simp [lstmtsIds, hid]))
    have h2 := visitLStmtsU_id imports conv xs
      (fun id hid => h id (by simp [lstmtsIds, hid]))
    simp [visitLStmtsU, visitLStmtU, h1, h2]

end

/-- Special case: with an empty imports dict the usage transformer is the
identity and records no update. -/
theorem visitLStmtsU_nil_imports (conv : List String) (l : List LStmt) :
    visitLStmtsU [] conv l = (l, []) :=
  visitLStmtsU_id [] conv l (fun _ _ => ⟨rfl, rfl⟩)

/-! ### Claim C6 -/

/-- A star warning contributed by any walked statement appears in the
`analyze_imports` output. -/
theorem mem_analyze_star_warnings {m : Module} {t : String} {conv : List String}
    {x : LStmt} {w : StarImportWarning}
    (hx : x ∈ walkStmts m) (hw : w ∈ stmtStarWarnings t x) :
    w ∈ (analyze_imports m t conv).2 := by
  simp only [analyze_imports]
  exact List.mem_flatten.mpr ⟨stmtStarWarnings t x, List.mem_map_of_mem _ hx, hw⟩

/-- C6: for a consuming module containing a wildcard import of a module
matching the target and no qualified/direct ImportBinding at all (so every
converted name is reachable only through the wildcard), `update_usage_file`
emits the StarImportWarning for that import, records zero UsageUpdates,
and returns no rewritten source. -/
theorem C6_star_import_warned_never_rewritten (consumer : Module)
    (tf mr : List String) (conv : List String) (t ms : String)
    (ln c : Nat) (names : List (String × Option String)) (asn : Option String)
    (hget : get_module_name_from_file tf mr = some t)
    (hne : (t == "") = false)
    (hmem : (ln, c, Stmt.impFrom (some ms) names) ∈ walkStmts consumer)
    (hmatch : fromModuleMatches t (some ms) = true)
    (hstar : ("*", asn) ∈ names)
    (hnoimports : (analyze_imports consumer t conv).1 = []) :
    (⟨ln, ms⟩ : StarImportWarning) ∈ (analyze_imports consumer t conv).2 ∧
    update_usage_file consumer tf mr conv =
      (none, [], (analyze_imports consumer t conv).2) := by
  have hw : (⟨ln, ms⟩ : StarImportWarning) ∈
      stmtStarWarnings t (ln, c, Stmt.impFrom (some ms) names) := by
    simp only [stmtStarWarnings, hmatch, if_true]
    exact List.mem_filterMap.mpr ⟨("*", asn), hstar, by simp⟩
  have hwm := @mem_analyze_star_warnings consumer t conv _ _ hmem hw
  refine ⟨hwm, ?_⟩
  have hwarnne : (analyze_imports consumer t conv).2.isEmpty = false :=
    List.isEmpty_eq_false.mpr (List.ne_nil_of_mem hwm)
  simp only [update_usage_file, hget, hne, Bool.false_eq_true, if_false,
    hnoimports, hwarnne, List.isEmpty_nil, Bool.true_and, Bool.and_false]
  rw [visitLStmtsU_nil_imports]
  simp

/-- Witness for C6: the end-to-end scenario D consumer
`from target import *` followed by a bare use of `schema_name`. -/
theorem C6_witness :
    (⟨1, "target"⟩ : StarImportWarning) ∈
      (analyze_imports
        [(1, 0, .impFrom (some "target") [("*", none)]),
         (2, 0, .exprStmt (.name "schema_name"))] "target" ["schema_name"]).2 ∧
    update_usage_file
        [(1, 0, .impFrom (some "target") [("*", none)]),
         (2, 0, .exprStmt (.name "schema_name"))] ["target.py"] [] ["schema_name"] =
      (none, [],
        (analyze_imports
          [(1, 0, .impFrom (some "target") [("*", none)]),
           (2, 0, .exprStmt (.name "schema_name"))] "target" ["schema_name"]).2) :=
  C6_star_import_warned_never_rewritten _ ["target.py"] [] ["schema_name"] "target" "target"
    1 0 [("*", none)] none rfl rfl (List.Mem.head _) rfl (List.Mem.head _) rfl

/-! ### Claim C10 -/

/-- The module contains no import statement anywhere in its walk. -/
def noImports (m : Module) : Bool :=
  (walkStmts m).all (fun x =>
    match x.2.2 with
    | .imp _ => false
    | .impFrom _ _ => false
    | _ => true)

/-- A module without import statements contributes no insertion events and
no warning events. -/
theorem import_event_flattens_of_noImports {m : Module} {t : String}
    {conv : List String} (h : noImports m = true) :
    ((walkStmts m).map (stmtImportEvents t conv)).flatten = [] ∧
    ((walkStmts m).map (stmtStarWarnings t)).flatten = [] := by
  have hall := List.all_eq_true.mp h
  constructor
  · refine List.flatten_eq_nil_iff.mpr ?_
    intro l hl
    obtain ⟨x, hx, rfl⟩ := List.mem_map.mp hl
    have hx2 := hall x hx
    obtain ⟨ln, c, s⟩ := x
    cases s <;> simp_all [stmtImportEvents]
  · refine List.flatten_eq_nil_iff.mpr ?_
    intro l hl
    obtain ⟨x, hx, rfl⟩ := List.mem_map.mp hl
    have hx2 := hall x hx
    obtain ⟨ln, c, s⟩ := x
    cases s <;> simp_all [stmtStarWarnings]

/-- Lookup in a one-entry dict misses when the key differs. -/
theorem dictGet_singleton_of_ne {K k : String} {v : ImportInfo} (h : K ≠ k) :
    dictGet [(K, v)] k = none := by
  have hb : (K == k) = false := beq_eq_false_iff_ne.mpr h
  simp [dictGet, List.find?, hb]

/-- A dict whose only key mangles a dotted module path is invisible to both
lookups made for a dot-free bare identifier: neither the identifier itself
nor its `__module__` mangling can equal the dotted key. -/
theorem dictGet_dotted_key_misses (P id : String) (v : ImportInfo)
    (hP : '.' ∈ P.data) (hid : '.' ∉ id.data) :
    dictGet [("__module__" ++ P, v)] id = none ∧
    dictGet [("__module__" ++ P, v)] ("__module__" ++ id) = none := by
  constructor
  · refine dictGet_singleton_of_ne ?_
    intro h
    apply hid
    rw [← h, String.data_append]
    exact List.mem_append_right _ hP
  · refine dictGet_singleton_of_ne ?_
    intro h
    apply hid
    have hdata : "__module__".data ++ P.data = "__module__".data ++ id.data := by
      have h2 := congrArg String.data h
      simpa using h2
    have hPid : P.data = id.data := List.append_cancel_left hdata
    rw [← hPid]
    exact hP

/-- C10: a consuming module whose sole import statement is a dotted
whole-module import without alias (`import P` with `P` containing a dot,
where `P` is or dot-prefixes the target module) gets a direct ImportBinding
registered under the key `__module__P`; yet, because `visit_Attribute` only
recognizes attribute accesses whose base is a single bare identifier and
`visit_Name` only matches bare identifiers (which cannot contain a dot),
no usage in the file is ever rewritten: `update_usage_file` returns no
rewritten source and zero UsageUpdates. -/
theorem C10_dotted_direct_import_registered_but_unusable
    (P t : String) (conv : List String) (tf mr : List String) (ln c : Nat)
    (rest : Module)
    (hget : get_module_name_from_file tf mr = some t)
    (hne : (t == "") = false)
    (hmatch : importModuleMatches t P = true)
    (hP : '.' ∈ P.data)
    (hrest : noImports rest = true)
    (hids : ∀ id ∈ lstmtsIds ((ln, c, Stmt.imp [(P, none)]) :: rest), '.' ∉ id.data) :
    (analyze_imports ((ln, c, Stmt.imp [(P, none)]) :: rest) t conv).1 =
      [("__module__" ++ P, ⟨P, P, "direct", P⟩)] ∧
    update_usage_file ((ln, c, Stmt.imp [(P, none)]) :: rest) tf mr conv =
      (none, [], []) := by
  have hflat := @import_event_flattens_of_noImports rest t conv hrest
  have hwalk : walkStmts ((ln, c, Stmt.imp [(P, none)]) :: rest) =
      (ln, c, Stmt.imp [(P, none)]) :: walkStmts rest := by
    simp [walkStmts_cons, walkStmt_eq, walkBody]
  have hairev : (analyze_imports ((ln, c, Stmt.imp [(P, none)]) :: rest) t conv).1 =
      [("__module__" ++ P, ⟨P, P, "direct", P⟩)] := by
    simp only [analyze_imports, hwalk, List.map_cons, List.flatten_cons, hflat.1,
      List.append_nil]
    simp [stmtImportEvents, hmatch, dictInsert]
  have hairw : (analyze_imports ((ln, c, Stmt.imp [(P, none)]) :: rest) t conv).2 = [] := by
    simp only [analyze_imports, hwalk, List.map_cons, List.flatten_cons, hflat.2,
      List.append_nil]
    simp [stmtStarWarnings]
  refine ⟨hairev, ?_⟩
  have hvisit : visitLStmtsU [("__module__" ++ P, ⟨P, P, "direct", P⟩)] conv
      ((ln, c, Stmt.imp [(P, none)]) :: rest) =
      ((ln, c, Stmt.imp [(P, none)]) :: rest, []) := by
    refine visitLStmtsU_id _ conv _ ?_
    intro id hid
    exact dictGet_dotted_key_misses P id _ hP (hids id hid)
  simp only [update_usage_file, hget, hne, Bool.false_eq_true, if_false, hairev, hairw]
  simp [hvisit]

/-- Witness for C10: the consumer `import pkg.sub` followed by the usage
`pkg.sub.name`, with target module `pkg.sub` and converted name `name`:
the direct binding is registered, yet nothing is rewritten. -/
theorem C10_witness :
    (analyze_imports
        [(1, 0, .imp [("pkg.sub", none)]),
         (3, 0, .exprStmt (.attr (.attr (.name "pkg") "sub") "name"))]
        "pkg.sub" ["name"]).1 =
      [("__module__" ++ "pkg.sub", ⟨"pkg.sub", "pkg.sub", "direct", "pkg.sub"⟩)] ∧
    update_usage_file
        [(1, 0, .imp [("pkg.sub", none)]),
         (3, 0, .exprStmt (.attr (.attr (.name "pkg") "sub") "name"))]
        ["pkg", "sub.py"] [] ["name"] =
      (none, [], []) :=
  C10_dotted_direct_import_registered_but_unusable "pkg.sub" "pkg.sub" ["name"]
    ["pkg", "sub.py"] [] 1 0
    [(3, 0, .exprStmt (.attr (.attr (.name "pkg") "sub") "name"))]
    rfl rfl (by decide) (by decide) (by decide) (by decide)

/-! ### Claim C8 -/

/-- Every assignment among the walked statements of the list has a nonzero
column offset. -/
def noColZeroAssigns (l : List LStmt) : Bool :=
  (walkStmts l).all (fun x =>
    match x.2.2 with
    | .assign _ _ => x.2.1 != 0
    | _ => true)

/-- The statements strictly inside one statement (a function body). -/
def stmtBody : Stmt → List LStmt
  | .funcDef _ _ body => body
  | _ => []

/-- Every assignment nested strictly inside a top-level statement has a
nonzero column offset — true of every parsed Python module, since a nested
statement must be indented. -/
def nestedAssignColsOk (m : Module) : Bool :=
  m.all (fun x => noColZeroAssigns (stmtBody x.2.2))

/-- Unfolding equation: the walk of an empty list. -/
theorem walkStmts_nil : walkStmts [] = [] := rfl

mutual

/-- The declaration transformer fixes any statement all of whose walked
assignments sit at nonzero columns. -/
theorem transformLStmt_fix (conv : List String) :
    ∀ (x : LStmt), noColZeroAssigns [x] = true → transformLStmt conv x = x
  | (ln, c, .assign ts v), h => by
    have hc : c ≠ 0 := by
      have h2 := List.all_eq_true.mp h (ln, c, .assign ts v)
        (by simp [walkStmts_cons, walkStmt_eq, walkBody, walkStmts_nil])
      simpa using h2
    simp [transformLStmt, transformStmt, hc]
  | (ln, c, .funcDef nm args body), h => by
    have hb : noColZeroAssigns body = true := by
      simp only [noColZeroAssigns, walkStmts_cons, walkStmt_eq, walkBody,
        walkStmts_nil, List.append_nil, List.all_cons, Bool.and_eq_true] at h
      exact h.2
    have hfix := transformLStmts_fix conv body hb
    simp [transformLStmt, transformStmt, hfix]
  | (ln, c, .ret v), _ => rfl
  | (ln, c, .imp ns), _ => rfl
  | (ln, c, .impFrom mo ns), _ => rfl
  | (ln, c, .exprStmt e), _ => rfl
  | (ln, c, .passStmt), _ => rfl

/-- List version of `transformLStmt_fix`. -/
theorem transformLStmts_fix (conv : List String) :
    ∀ (l : List LStmt), noColZeroAssigns l = true → transformLStmts conv l = l
  | [], _ => rfl
  | x :: xs, h => by
    have hsplit : noColZeroAssigns [x] = true ∧ noColZeroAssigns xs = true := by
      simp only [noColZeroAssigns, walkStmts_cons, walkStmts_nil, List.append_nil,
        List.all_append, Bool.and_eq_true] at h ⊢
      exact ⟨h.1, h.2⟩
    rw [transformLStmts, transformLStmt_fix conv x hsplit.1,
      transformLStmts_fix conv xs hsplit.2]

end

/-- Case analysis of `visit_Assign`: the assignment is either returned
unchanged — and then a column-zero single-bare-name target is certainly not
in the converted set — or it is converted to the zero-argument function
definition. -/
theorem transformStmt_assign_cases (conv : List String) (ln c : Nat)
    (ts : List Expr) (v : Expr) :
    (transformStmt conv ln c (.assign ts v) = .assign ts v ∧
      (c = 0 → ∀ nm, ts = [Expr.name nm] → conv.contains nm = false)) ∨
    (c = 0 ∧ ∃ nm, ts = [Expr.name nm] ∧ conv.contains nm = true ∧
      transformStmt conv ln c (.assign ts v) =
        .funcDef nm [] [(ln, 0, .ret (some v))]) := by
  by_cases hc : c = 0
  · rcases ts with _ | ⟨t, _ | ⟨t2, ts2⟩⟩
    · left
      refine ⟨by simp [transformStmt, hc], ?_⟩
      intro _ nm hnm
      simp at hnm
    · cases t with
      | name nm =>
        by_cases hcv : conv.contains nm = true
        · right
          have hmem : nm ∈ conv := List.elem_iff.mp hcv
          exact ⟨hc, nm, rfl, hcv, by simp [transformStmt, hc, hmem]⟩
        · left
          have hnmem : nm ∉ conv := fun hm => hcv (List.elem_iff.mpr hm)
          refine ⟨by simp [transformStmt, hc, hnmem], ?_⟩
          intro _ nm2 hnm2
          obtain ⟨rfl⟩ : nm = nm2 := by
            simpa using congrArg (fun l => l) hnm2
          simpa using hcv
      | attr a b =>
        left
        exact ⟨by simp [transformStmt, hc], by intro _ nm hnm; simp at hnm⟩
      | call a b =>
        left
        exact ⟨by simp [transformStmt, hc], by intro _ nm hnm; simp at hnm⟩
      | strLit a =>
        left
        exact ⟨by simp [transformStmt, hc], by intro _ nm hnm; simp at hnm⟩
      | intLit a =>
        left
        exact ⟨by simp [transformStmt, hc], by intro _ nm hnm; simp at hnm⟩
      | tup a =>
        left
        exact ⟨by simp [transformStmt, hc], by intro _ nm hnm; simp at hnm⟩
    · left
      refine ⟨by simp [transformStmt, hc], ?_⟩
      intro _ nm hnm
      simp at hnm
  · left
    exact ⟨by simp [transformStmt, hc], fun h0 => absurd h0 hc⟩

/-- Inversion: when `visit_Assign` outputs an assignment, the input was that
very assignment, and a column-zero single-bare-name target was not
converted. -/
theorem transformStmt_assign_inv {conv : List String} {ln c : Nat} {s : Stmt}
    {ts : List Expr} {v : Expr}
    (h : transformStmt conv ln c s = Stmt.assign ts v) :
    s = Stmt.assign ts v ∧
      (c = 0 → ∀ nm, ts = [Expr.name nm] → conv.contains nm = false) := by
  cases s with
  | assign ts0 v0 =>
    rcases transformStmt_assign_cases conv ln c ts0 v0 with ⟨hcase, hprop⟩ |
      ⟨hc0, nm, hts, hcv, hcase⟩
    · rw [hcase] at h
      injection h with h1 h2
      subst h1
      subst h2
      exact ⟨rfl, hprop⟩
    · rw [hcase] at h
      exact absurd h (by simp)
  | funcDef nm args body => exact absurd h (by simp [transformStmt])
  | ret e => exact absurd h (by simp [transformStmt])
  | imp ns => exact absurd h (by simp [transformStmt])
  | impFrom mo ns => exact absurd h (by simp [transformStmt])
  | exprStmt e => exact absurd h (by simp [transformStmt])
  | passStmt => exact absurd h (by simp [transformStmt])

/-- In the transform of a module whose nested assignments all sit at
nonzero columns, any column-zero assignment found by the walk is a
top-level statement of the transformed module. -/
theorem colzero_assign_mem_top (conv : List String) (m : Module)
    (h : nestedAssignColsOk m = true) {ln : Nat} {ts : List Expr} {v : Expr}
    (hmem : (ln, 0, Stmt.assign ts v) ∈ walkStmts (transform_module conv m)) :
    (ln, (0 : Nat), Stmt.assign ts v) ∈ transform_module conv m := by
  obtain ⟨y, hy, hxy⟩ := mem_walkStmts.mp hmem
  obtain ⟨ly, cy, sy⟩ := y
  rw [walkStmt_eq] at hxy
  rcases List.mem_cons.mp hxy with heq | hbody
  · rw [heq]
    exact hy
  · exfalso
    rw [transform_module, transformLStmts_eq_map] at hy
    obtain ⟨⟨l0, c0, s0⟩, h0, ht⟩ := List.mem_map.mp hy
    have hsy : sy = transformStmt conv l0 c0 s0 := by
      have h3 := congrArg (fun z : LStmt => z.2.2) ht
      simpa [transformLStmt] using h3.symm
    rw [hsy] at hbody
    have hok : noColZeroAssigns (stmtBody s0) = true := by
      have h4 := List.all_eq_true.mp h _ h0
      simpa using h4
    cases s0 with
    | assign ts0 v0 =>
      rcases transformStmt_assign_cases conv l0 c0 ts0 v0 with ⟨hcase, _⟩ |
        ⟨_, nm, _, _, hcase⟩
      · rw [hcase] at hbody
        simp [walkBody] at hbody
      · rw [hcase] at hbody
        simp only [walkBody, walkStmts_cons, walkStmts_nil, List.append_nil,
          walkStmt_eq] at hbody
        rcases List.mem_cons.mp hbody with heq2 | h5
        · simp at heq2
        · simp [walkBody] at h5
    | funcDef nm0 args0 body0 =>
      have hfix := transformLStmts_fix conv body0 (by simpa [stmtBody] using hok)
      simp only [transformStmt, walkBody, hfix] at hbody
      have h6 := List.all_eq_true.mp (by simpa [stmtBody] using hok :
        noColZeroAssigns body0 = true) _ hbody
      simp at h6
    | ret e => simp [transformStmt, walkBody] at hbody
    | imp ns => simp [transformStmt, walkBody] at hbody
    | impFrom mo ns => simp [transformStmt, walkBody] at hbody
    | exprStmt e => simp [transformStmt, walkBody] at hbody
    | passStmt => simp [transformStmt, walkBody] at hbody

/-- C8: re-running the binding analysis on the output of a completed
conversion (converted set = all Bindings of the original analysis) yields
no Binding named by any converted name: each such assignment has become a
function definition, so no top-level simple-name assignment with a
converted name remains. -/
theorem C8_reanalysis_yields_no_converted_binding (m : Module)
    (h : nestedAssignColsOk m = true) :
    ∀ v ∈ (analyze_file (transform_module (varNames (analyze_file m).1) m)).1,
      v.name ∉ varNames (analyze_file m).1 := by
  intro v hv hvin
  obtain ⟨x, hx, hcv⟩ := List.mem_filterMap.mp hv
  obtain ⟨ln, c, s⟩ := x
  obtain ⟨hc0, hln, hs, h1, h2⟩ := classifyVar_eq_some.mp hcv
  subst hc0
  subst hln
  subst hs
  have htop := colzero_assign_mem_top _ m h hx
  rw [transform_module, transformLStmts_eq_map] at htop
  obtain ⟨⟨l0, c0, s0⟩, h0, ht⟩ := List.mem_map.mp htop
  have hl0 : l0 = v.lineno := by
    have h3 := congrArg (fun z : LStmt => z.1) ht
    simpa [transformLStmt] using h3
  have hc0 : c0 = 0 := by
    have h3 := congrArg (fun z : LStmt => z.2.1) ht
    simpa [transformLStmt] using h3
  subst hl0
  subst hc0
  have hts : transformStmt (varNames (analyze_file m).1) v.lineno 0 s0 =
      Stmt.assign [Expr.name v.name] v.value_node := by
    have h3 := congrArg (fun z : LStmt => z.2.2) ht
    simpa [transformLStmt] using h3
  obtain ⟨hs0, hprop⟩ := transformStmt_assign_inv hts
  have hcontains := hprop rfl v.name rfl
  have hmem2 : (varNames (analyze_file m).1).contains v.name = true :=
    List.elem_iff.mpr hvin
  rw [hcontains] at hmem2
  exact Bool.false_ne_true hmem2

/-- Witness for C8: converting the scenario A module and re-analyzing it
leaves no Binding named `schema_name`. -/
theorem C8_witness :
    nestedAssignColsOk [(1, 0, .assign [.name "schema_name"] (.strLit "user_schema"))] =
      true ∧
    ∀ v ∈ (analyze_file (transform_module
        (varNames (analyze_file
          [(1, 0, .assign [.name "schema_name"] (.strLit "user_schema"))]).1)
        [(1, 0, .assign [.name "schema_name"] (.strLit "user_schema"))])).1,
      v.name ∉ varNames (analyze_file
        [(1, 0, .assign [.name "schema_name"] (.strLit "user_schema"))]).1 :=
  ⟨rfl, C8_reanalysis_yields_no_converted_binding _ rfl⟩

/-! ### Claim C4 -/

/-- Every event emitted by the step-4 usage loop is a file read. -/
theorem usageLoop_events_are_reads (fs : String → Option (Option Module))
    (target : String) (tf mr : List String) (conv : List String) :
    ∀ (l : List String) (e : Event),
      e ∈ (usageLoop fs target tf mr conv l).1 → ∃ f, e = .read f
  | [], e, he => by simp [usageLoop] at he
  | f :: rest, e, he => by
    by_cases hf : (f == target) = true
    · rw [usageLoop] at he
      rw [if_pos hf] at he
      exact usageLoop_events_are_reads fs target tf mr conv rest e he
    · rw [usageLoop, if_neg hf] at he
      cases hfs : fs f with
      | none =>
        rw [hfs] at he
        simp at he
        exact ⟨f, he⟩
      | some pf =>
        rw [hfs] at he
        simp only [List.mem_cons] at he
        rcases he with rfl | he2
        · exact ⟨f, rfl⟩
        · exact usageLoop_events_are_reads fs target tf mr conv rest e he2

/-- A trace containing no write satisfies both halves of the C4 property. -/
theorem no_write_trace_decomp {tr : List Event}
    (h : ∀ e ∈ tr, ∀ f, e ≠ Event.write f) :
    (Event.abort ∈ tr → ∀ f, Event.write f ∉ tr) ∧
    (∃ rs ws, tr = rs ++ ws ∧ (∀ e ∈ rs, ∀ f, e ≠ Event.write f) ∧
      (∀ e ∈ ws, ∃ f, e = Event.write f)) :=
  ⟨fun _ f hw => (h _ hw f) rfl, tr, [], by simp, h, by simp⟩

/-- C4: in every run of the orchestrator, a fatal error (an abort event)
implies no file is ever written, and the whole trace splits into a prefix
with no write (the existence check, pattern gate, target analysis, and the
per-file usage analysis reads) followed by the writes; so writes happen
only after every file has been analyzed without a fatal error, and a state
with the target rewritten but usages not (or vice versa because of a fatal
error) never occurs. -/
theorem C4_no_write_after_fatal_error (fs : String → Option (Option Module))
    (target : String) (patternOk : Bool) (scanned : List String)
    (tf mr : List String) (applyFlag : Bool) :
    (Event.abort ∈ cli fs target patternOk scanned tf mr applyFlag →
      ∀ f, Event.write f ∉ cli fs target patternOk scanned tf mr applyFlag) ∧
    (∃ rs ws, cli fs target patternOk scanned tf mr applyFlag = rs ++ ws ∧
      (∀ e ∈ rs, ∀ f, e ≠ Event.write f) ∧
      (∀ e ∈ ws, ∃ f, e = Event.write f)) := by
  cases hft : fs target with
  | none =>
    have htr : cli fs target patternOk scanned tf mr applyFlag = [.abort] := by
      simp [cli, hft]
    rw [htr]
    refine no_write_trace_decomp ?_
    intro e he f
    simp only [List.mem_singleton] at he
    subst he
    simp
  | some tparse =>
    by_cases hp : patternOk = true
    · cases tparse with
      | none =>
        have htr : cli fs target patternOk scanned tf mr applyFlag =
            [.read target, .abort] := by
          simp [cli, hft, hp]
        rw [htr]
        refine no_write_trace_decomp ?_
        intro e he f
        simp only [List.mem_cons, List.mem_singleton, List.not_mem_nil, or_false] at he
        rcases he with rfl | rfl <;> simp
      | some tm =>
        by_cases hempty :
            ((analyze_file tm).1.isEmpty && (analyze_file tm).2.isEmpty) = true
        · have htr : cli fs target patternOk scanned tf mr applyFlag =
              [.read target, .exitOk] := by
            simp [cli, hft, hp, hempty]
          rw [htr]
          refine no_write_trace_decomp ?_
          intro e he f
          simp only [List.mem_cons, List.mem_singleton, List.not_mem_nil, or_false] at he
          rcases he with rfl | rfl <;> simp
        · by_cases hab :
              (usageLoop fs target tf mr (varNames (analyze_file tm).1) scanned).2.1 = true
          · have htr : cli fs target patternOk scanned tf mr applyFlag =
                .read target ::
                  (usageLoop fs target tf mr (varNames (analyze_file tm).1) scanned).1 ++
                  [.abort] := by
              simp [cli, hft, hp, hempty, hab]
            rw [htr]
            refine no_write_trace_decomp ?_
            intro e he f
            rcases List.mem_cons.mp he with rfl | he2
            · simp
            · rcases List.mem_append.mp he2 with he3 | he3
              · obtain ⟨g, rfl⟩ :=
                  usageLoop_events_are_reads fs target tf mr _ scanned e he3
                simp
              · simp only [List.mem_singleton] at he3
                subst he3
                simp
          · by_cases happ : applyFlag = true
            · have htr : cli fs target patternOk scanned tf mr applyFlag =
                  .read target ::
                    (usageLoop fs target tf mr (varNames (analyze_file tm).1) scanned).1 ++
                    [.read target, .write target] ++
                    ((usageLoop fs target tf mr (varNames (analyze_file tm).1)
                      scanned).2.2).map .write := by
                simp [cli, hft, hp, hempty, hab, happ]
              rw [htr]
              constructor
              · intro habort
                exfalso
                rcases List.mem_cons.mp (by
                    simpa only [List.cons_append] using habort) with h1 | h1
                · exact Event.noConfusion h1
                · rcases List.mem_append.mp h1 with h2 | h2
                  · rcases List.mem_append.mp h2 with h3 | h3
                    · obtain ⟨g, hg⟩ :=
                        usageLoop_events_are_reads fs target tf mr _ scanned _ h3
                      exact Event.noConfusion hg
                    · rcases List.mem_cons.mp h3 with h4 | h4
                      · exact Event.noConfusion h4
                      · simp only [List.mem_singleton] at h4
                        exact Event.noConfusion h4
                  · obtain ⟨g, hg, hge⟩ := List.mem_map.mp h2
                    exact Event.noConfusion hge.symm
              · refine ⟨.read target ::
                    (usageLoop fs target tf mr (varNames (analyze_file tm).1) scanned).1 ++
                    [.read target],
                  .write target ::
                    ((usageLoop fs target tf mr (varNames (analyze_file tm).1)
                      scanned).2.2).map .write, ?_, ?_, ?_⟩
                · simp
                · intro e he f
                  rcases List.mem_cons.mp (by
                      simpa only [List.cons_append] using he) with rfl | h1
                  · simp
                  · rcases List.mem_append.mp h1 with h2 | h2
                    · obtain ⟨g, rfl⟩ :=
                        usageLoop_events_are_reads fs target tf mr _ scanned e h2
                      simp
                    · simp only [List.mem_singleton] at h2
                      subst h2
                      simp
                · intro e he
                  rcases List.mem_cons.mp he with rfl | h1
                  · exact ⟨target, rfl⟩
                  · obtain ⟨g, hg, hge⟩ := List.mem_map.mp h1
                    exact ⟨g, hge.symm⟩
            · have htr : cli fs target patternOk scanned tf mr applyFlag =
                  .read target ::
                    (usageLoop fs target tf mr (varNames (analyze_file tm).1) scanned).1 ++
                    [.exitOk] := by
                simp [cli, hft, hp, hempty, hab, happ]
              rw [htr]
              refine no_write_trace_decomp ?_
              intro e he f
              rcases List.mem_cons.mp he with rfl | he2
              · simp
              · rcases List.mem_append.mp he2 with he3 | he3
                · obtain ⟨g, rfl⟩ :=
                    usageLoop_events_are_reads fs target tf mr _ scanned e he3
                  simp
                · simp only [List.mem_singleton] at he3
                  subst he3
                  simp
    · have htr : cli fs target patternOk scanned tf mr applyFlag = [.abort] := by
        simp [cli, hft, hp]
      rw [htr]
      refine no_write_trace_decomp ?_
      intro e he f
      simp only [List.mem_singleton] at he
      subst he
      simp

/-- Witness for C4: a run whose target file does not parse reads the target,
aborts, and writes nothing. -/
theorem C4_witness :
    Event.abort ∈ cli (fun _ => some none) "t" true ["t", "u"] ["t.py"] [] true ∧
    ∀ f, Event.write f ∉ cli (fun _ => some none) "t" true ["t", "u"] ["t.py"] [] true :=
  ⟨by decide,
    (C4_no_write_after_fatal_error (fun _ => some none) "t" true ["t", "u"]
      ["t.py"] [] true).1 (by decide)⟩

end Rewrite
